import Mathlib

/-!
Verification development for the shyft distributed time-series service (dtss),
its expression-node serialization, the binding-resolver protocol, the routing
river-network graph and the unit-hydro-graph construction.

Conventions of the embedding:
- `utctime`/`utctimespan` (64-bit second counts) are modelled as `Int`; no
  claim below exercises 64-bit overflow.
- C++ `double` values are modelled as exact rationals `ℚ`; the claims settled
  over them concern algorithm structure (normalization, ordering, counts), not
  floating-point rounding.
- C++ member functions that mutate `*this` and may throw are modelled as
  functions `state → state × Except String Unit`: the returned state is the
  object state after the call, whether or not an exception escaped (C++
  exceptions do not roll back member mutations).
-/

namespace Shyft

/-- A time-series point-interpretation flag, `shyft::time_series::ts_point_fx`. -/
inductive ts_point_fx where
  | POINT_INSTANT_VALUE
  | POINT_AVERAGE_VALUE
deriving DecidableEq, Repr

/-- Fixed-interval time axis `shyft::time_axis::fixed_dt` (the api `gta_t` as
used by `fire_cb`): start time, delta-t and number of steps.  The step count is
kept as the integer produced by the C++ integer division
`p.timespan()/deltahours(1)` (the C++ field is a `size_t`; the claims below do
not exercise the negative-to-`size_t` wrap). -/
structure gta_t where
  start : Int
  dt : Int
  n : Int
deriving DecidableEq, Repr

/-- A half-open utc period `[start..end_)`, `shyft::core::utcperiod`. -/
structure utcperiod where
  start : Int
  end_ : Int
deriving DecidableEq, Repr

/-- The span `utcperiod::timespan() = end - start`. -/
def utcperiod.timespan (p : utcperiod) : Int := p.end_ - p.start

/-- Seconds in `n` hours, `shyft::core::deltahours(n) = 3600*n`. -/
def deltahours (n : Int) : Int := 3600 * n

/-- The concrete point-series payload of `shyft::api::gpoint_ts` (its `rep`):
a fixed-dt time axis, the sample values and the point interpretation. -/
structure gpoint_rep where
  ta : gta_t
  v : List ℚ
  fx : ts_point_fx
deriving DecidableEq, Repr

/-- The payload of `shyft::api::periodic_ts` (its `ts` member): a periodic
pattern, its anchor time `t0` and pattern step `dt`. -/
structure periodic_rep where
  pattern : List ℚ
  t0 : Int
  dt : Int
deriving DecidableEq, Repr

/-- Binary-operation tag `shyft::api::iop_t` carried by the `abin_op_*` nodes. -/
inductive iop_t where
  | OP_NONE
  | OP_ADD
  | OP_SUB
  | OP_DIV
  | OP_MUL
  | OP_MAX
  | OP_MIN
deriving DecidableEq, Repr

/-- Convolution boundary policy `shyft::time_series::convolve_policy`. -/
inductive convolve_policy where
  | USE_FIRST
  | USE_ZERO
  | USE_NAN
deriving DecidableEq, Repr

mutual
/-- The closed set of expression-node variants behind `shyft::api::apoint_ts`
(the dynamic-dispatch `ipoint_ts` hierarchy), one constructor per variant with
exactly the fields that `api/api_serialization.cpp` serializes for it:
`gpoint_ts` (rep), `aref_ts` (ref string, optionally bound point data),
`average_ts`/`integral_ts`/`accumulate_ts` (ta, ts), `time_shift_ts`
(ta, ts, dt), `periodic_ts` (rep), `convolve_w_ts` (ts, fx_policy, w, policy),
`abin_op_ts` / `abin_op_scalar_ts` / `abin_op_ts_scalar`
(lhs, op, rhs, ta, fx_policy, bound) and `ats_vector` (a vector of
expressions). -/
inductive apoint_ts where
  | gpoint (rep : gpoint_rep)
  | aref (ref : String) (ts : Option gpoint_rep)
  | average (ta : gta_t) (ts : apoint_ts)
  | integral (ta : gta_t) (ts : apoint_ts)
  | accumulate (ta : gta_t) (ts : apoint_ts)
  | time_shift (ta : gta_t) (ts : apoint_ts) (dt : Int)
  | periodic (rep : periodic_rep)
  | convolve (ts : apoint_ts) (fx_policy : ts_point_fx) (w : List ℚ) (policy : convolve_policy)
  | abin_op (lhs : apoint_ts) (op : iop_t) (rhs : apoint_ts) (ta : gta_t)
      (fx_policy : ts_point_fx) (bound : Bool)
  | abin_op_scalar (lhs : ℚ) (op : iop_t) (rhs : apoint_ts) (ta : gta_t)
      (fx_policy : ts_point_fx) (bound : Bool)
  | abin_op_ts_scalar (lhs : apoint_ts) (op : iop_t) (rhs : ℚ) (ta : gta_t)
      (fx_policy : ts_point_fx) (bound : Bool)
  | vector (xs : ats_vector)
deriving DecidableEq, Repr

/-- The node-level expression vector `shyft::api::ats_vector`
(a sequence of `apoint_ts`), as its own type mirroring the C++ class. -/
inductive ats_vector where
  | nil
  | cons (x : apoint_ts) (xs : ats_vector)
deriving DecidableEq, Repr
end

/-- Length of an `ats_vector`. -/
def ats_vector.len : ats_vector → ℕ
  | .nil => 0
  | .cons _ xs => xs.len + 1

/- ------------------------------------------------------------------ -/
/- dtss server: `py_server::fire_cb` (src/unnamed/part_001, lines 70-84) -/
/- ------------------------------------------------------------------ -/

/-- Constant-filled point series `api::apoint_ts(ta, fill, point_fx)`:
a `gpoint_ts` whose `n` values all equal `fill`. -/
def apoint_ts_const (ta : gta_t) (fill : ℚ) (fx : ts_point_fx) : apoint_ts :=
  .gpoint ⟨ta, List.replicate ta.n.toNat fill, fx⟩

/-- The fallback fill loop of `py_server::fire_cb`:
`for (size_t i = 0; i < ts_ids.size(); ++i) r.push_back(apoint_ts(ta, double(i), POINT_AVERAGE_VALUE));`
modelled with the running index `i` and the remaining count. -/
def fire_cb_fill (ta : gta_t) : ℕ → ℕ → List apoint_ts
  | _, 0 => []
  | i, k + 1 =>
      apoint_ts_const ta (i : ℚ) ts_point_fx.POINT_AVERAGE_VALUE :: fire_cb_fill ta (i + 1) k

/-- The resolver callback slot `py_server::cb`: `None` (no python callable
configured) or a callable from identifier list and period to a series vector. -/
def py_server_cb : Type :=
  Option (List String → utcperiod → List apoint_ts)

/-- Translation of `py_server::fire_cb(ts_ids, p)`: if `cb` is not `Py_None`
invoke it, otherwise fill in constant series over the hourly axis
`gta_t(p.start, deltahours(1), p.timespan()/deltahours(1))`. -/
def fire_cb (cb : py_server_cb) (ts_ids : List String) (p : utcperiod) : List apoint_ts :=
  match cb with
  | some f => f ts_ids p
  | none =>
      fire_cb_fill ⟨p.start, deltahours 1, p.timespan / deltahours 1⟩ 0 ts_ids.length

/- ------------------------------------------------------------------ -/
/- Binding resolver protocol (spec 4.2; the dtss core that implements it
   is not among the given sources, so it is modelled from the spec).    -/
/- ------------------------------------------------------------------ -/

mutual
/-- Modelled from the spec: the per-node collection step of the binding
traversal (`core/dtss.h` is not among the given sources) — the unresolved
symbolic identifiers of one expression node, in traversal order, with
multiplicity.  A `reference` node is unresolved exactly when it carries no
bound data yet; every other terminal contributes nothing and interior nodes
contribute their children's identifiers. -/
def unbound_ids : apoint_ts → List String
  | .gpoint _ => []
  | .aref s none => [s]
  | .aref _ (some _) => []
  | .average _ ts => unbound_ids ts
  | .integral _ ts => unbound_ids ts
  | .accumulate _ ts => unbound_ids ts
  | .time_shift _ ts _ => unbound_ids ts
  | .periodic _ => []
  | .convolve ts _ _ _ => unbound_ids ts
  | .abin_op l _ r _ _ _ => unbound_ids l ++ unbound_ids r
  | .abin_op_scalar _ _ r _ _ _ => unbound_ids r
  | .abin_op_ts_scalar l _ _ _ _ _ => unbound_ids l
  | .vector xs => unbound_idsL xs

/-- Modelled from the spec: identifier collection over a node-level vector. -/
def unbound_idsL : ats_vector → List String
  | .nil => []
  | .cons x xs => unbound_ids x ++ unbound_idsL xs
end

/-- First-occurrence-order deduplication of an identifier list, accumulating
the identifiers already seen. -/
def dedup_acc (seen : List String) : List String → List String
  | [] => []
  | s :: rest =>
      if s ∈ seen then dedup_acc seen rest else s :: dedup_acc (s :: seen) rest

/-- Modelled from the spec: the ordered, deduplicated list of distinct
unresolved identifiers of one request (a vector of expressions). -/
def request_ids (tsv : List apoint_ts) : List String :=
  dedup_acc [] (tsv.map unbound_ids).flatten

mutual
/-- Modelled from the spec: the substitution pass of binding — each
`reference` node whose identifier matches an entry of the resolver's result
table is replaced by a `point` node wrapping the returned series; every other
node is rebuilt from its (substituted) children, and already-bound references
are left untouched. -/
def bind_subst (table : List (String × gpoint_rep)) : apoint_ts → apoint_ts
  | .gpoint r => .gpoint r
  | .aref s none =>
      match table.lookup s with
      | some r => .gpoint r
      | none => .aref s none
  | .aref s (some r) => .aref s (some r)
  | .average ta ts => .average ta (bind_subst table ts)
  | .integral ta ts => .integral ta (bind_subst table ts)
  | .accumulate ta ts => .accumulate ta (bind_subst table ts)
  | .time_shift ta ts dt => .time_shift ta (bind_subst table ts) dt
  | .periodic r => .periodic r
  | .convolve ts fx w pol => .convolve (bind_subst table ts) fx w pol
  | .abin_op l op r ta fx b => .abin_op (bind_subst table l) op (bind_subst table r) ta fx b
  | .abin_op_scalar l op r ta fx b => .abin_op_scalar l op (bind_subst table r) ta fx b
  | .abin_op_ts_scalar l op r ta fx b => .abin_op_ts_scalar (bind_subst table l) op r ta fx b
  | .vector xs => .vector (bind_substL table xs)

/-- Modelled from the spec: substitution over a node-level vector. -/
def bind_substL (table : List (String × gpoint_rep)) : ats_vector → ats_vector
  | .nil => .nil
  | .cons x xs => .cons (bind_subst table x) (bind_substL table xs)
end

/-- Error taxonomy entry relevant to binding (spec section 7):
`ResolverMismatch` — the resolver returned the wrong number of series. -/
inductive dtss_error where
  | resolver_mismatch
deriving DecidableEq, Repr

/-- Modelled from the spec (4.2): `bind(root_or_vector, period, resolver)`.
Collect the distinct unresolved identifiers; if none, the resolver is not
invoked and the input is returned; otherwise invoke the resolver exactly once
with the ordered identifier list and the period, fail fatally when the
returned series count differs from the requested count, and otherwise
substitute.  The second component is the log of resolver invocations made. -/
def bind (resolver : List String → utcperiod → List gpoint_rep)
    (tsv : List apoint_ts) (p : utcperiod) :
    Except dtss_error (List apoint_ts) × List (List String × utcperiod) :=
  let ids := request_ids tsv
  if ids.isEmpty then (.ok tsv, [])
  else
    let rs := resolver ids p
    if rs.length ≠ ids.length then (.error .resolver_mismatch, [(ids, p)])
    else (.ok (tsv.map (bind_subst (ids.zip rs))), [(ids, p)])

mutual
/-- The cached is-fully-bound predicate of the data model (spec section 3):
every node other than `reference` is fully bound iff all its children are;
a `reference` is bound only once it carries data. -/
def fully_bound : apoint_ts → Bool
  | .gpoint _ => true
  | .aref _ none => false
  | .aref _ (some _) => true
  | .average _ ts => fully_bound ts
  | .integral _ ts => fully_bound ts
  | .accumulate _ ts => fully_bound ts
  | .time_shift _ ts _ => fully_bound ts
  | .periodic _ => true
  | .convolve ts _ _ _ => fully_bound ts
  | .abin_op l _ r _ _ _ => fully_bound l && fully_bound r
  | .abin_op_scalar _ _ r _ _ _ => fully_bound r
  | .abin_op_ts_scalar l _ _ _ _ _ => fully_bound l
  | .vector xs => fully_boundL xs

/-- The is-fully-bound predicate over a node-level vector. -/
def fully_boundL : ats_vector → Bool
  | .nil => true
  | .cons x xs => fully_bound x && fully_boundL xs
end

/- ------------------------------------------------------------------ -/
/- Percentile aggregation (spec 4.3; the computing core is not among the
   given sources — `py_client::percentiles` delegates to it — so it is
   modelled from the spec).                                            -/
/- ------------------------------------------------------------------ -/

/-- Arithmetic mean of the ensemble values at one output step. -/
def ens_mean (vals : List ℚ) : ℚ := vals.sum / (vals.length : ℚ)

/-- Modelled from the spec: the 0–100 statistical percentile of the ensemble
values at one output step, computed by linear interpolation between order
statistics (rank `pct/100 * (n-1)` over the sorted values). -/
def percentile_interp (vals : List ℚ) (pct : ℚ) : ℚ :=
  let s := vals.insertionSort (· ≤ ·)
  if s.isEmpty then 0
  else
    let r : ℚ := pct / 100 * ((s.length : ℚ) - 1)
    let i : ℕ := (Int.floor r).toNat
    let f : ℚ := r - ((Int.floor r : ℤ) : ℚ)
    match s[i]?, s[i + 1]? with
    | some a, some b => a + f * (b - a)
    | some a, none => a
    | none, _ => 0

/-- Modelled from the spec: the per-step statistic for one requested
percentile value — `-1` denotes the arithmetic mean across the ensemble,
`0..100` the interpolated order statistic. -/
def percentile_at (vals : List ℚ) (pct : Int) : ℚ :=
  if pct = -1 then ens_mean vals else percentile_interp vals (pct : ℚ)

/-- Modelled from the spec: `percentiles(vector, period, output_axis,
percentile_list)` after the input vector has been bound, evaluated and aligned
onto the output axis — `ens` holds, for each output step, the ensemble values
at that step; the result carries one series per requested percentile, in the
order of `percentile_list`. -/
def percentiles (ens : List (List ℚ)) (percentile_list : List Int) : List (List ℚ) :=
  percentile_list.map (fun pct => ens.map (fun vals => percentile_at vals pct))

/- ------------------------------------------------------------------ -/
/- Routing river network (src/core/routing.h)                          -/
/- ------------------------------------------------------------------ -/

/-- Downstream binding information `shyft::core::routing_info`:
the target river id (0 = none) and the hydrological distance. -/
structure routing_info where
  id : Int
  distance : ℚ
deriving DecidableEq, Repr

/-- Unit-hydro-graph shape parameters `shyft::core::routing::uhg_parameter`. -/
structure uhg_parameter where
  velocity : ℚ
  alpha : ℚ
  beta : ℚ
deriving DecidableEq, Repr

/-- A routing river `shyft::core::routing::river`: id, downstream link and
uhg parameters. -/
structure river where
  id : Int
  downstream : routing_info
  parameter : uhg_parameter
deriving DecidableEq, Repr

/-- Observable state of `shyft::core::routing::river_network`: the dlib
directed-graph node slots (slot index = dlib node id; a removed node leaves
`none` — dlib's index renumbering after removal is abstracted away, no claim
settled here adds nodes after a removal), the directed edge list, and the
`std::map<int,unsigned long> rid_map` from river id to node id as an
association list. -/
structure river_network where
  nodes : List (Option river)
  edges : List (ℕ × ℕ)
  rid_map : List (Int × ℕ)
deriving DecidableEq, Repr

/-- The empty river network. -/
def river_network.empty : river_network := ⟨[], [], []⟩

/-- Lookup in the `rid_map` association list (`std::map::find`). -/
def map_find (m : List (Int × ℕ)) (k : Int) : Option ℕ :=
  match m with
  | [] => none
  | (k', v) :: rest => if k' = k then some v else map_find rest k

/-- The `std::map` subscript `operator[]`: return the mapped value, and if the
key is absent insert a value-initialized (zero) entry first — this
default-insertion is observable state and is modelled faithfully. -/
def map_bracket (m : List (Int × ℕ)) (k : Int) : ℕ × List (Int × ℕ) :=
  match map_find m k with
  | some v => (v, m)
  | none => (0, m ++ [(k, 0)])

/-- Assignment through the `std::map` subscript, `m[k] = v`. -/
def map_set (m : List (Int × ℕ)) (k : Int) (v : ℕ) : List (Int × ℕ) :=
  match m with
  | [] => [(k, v)]
  | (k', v') :: rest => if k' = k then (k, v) :: rest else (k', v') :: map_set rest k v

/-- Translation of `river_network::check_rid(rid, must_exist)`. -/
def check_rid (net : river_network) (rid : Int) (must_exist : Bool) : Except String Unit :=
  if rid ≤ 0 then .error "valid river id must be >0"
  else if must_exist && (map_find net.rid_map rid).isNone then
    .error "the supplied river id is not registered/does not exist"
  else .ok ()

/-- Bounded reachability in the edge list: `reach edges fuel a b` decides
whether a directed path of length between 1 and `fuel` leads from `a` to `b`. -/
def reach (edges : List (ℕ × ℕ)) : ℕ → ℕ → ℕ → Bool
  | 0, _, _ => false
  | fuel + 1, a, b =>
      edges.any (fun e => decide (e.1 = a) && (decide (e.2 = b) || reach edges fuel e.2 b))

/-- Decision procedure standing for `dlib::graph_contains_directed_cycle`:
some node reaches itself through at least one edge (paths of length up to the
edge count suffice, since a minimal cycle repeats no edge). -/
def graph_contains_directed_cycle (net : river_network) : Bool :=
  (List.range net.nodes.length).any (fun i => reach net.edges net.edges.length i i)

/-- The river stored in a node slot (a default for an empty slot; the
operations below only read slots they have checked to exist). -/
def node_data (net : river_network) (nid : ℕ) : river :=
  ((net.nodes.getD nid none).getD ⟨0, ⟨0, 0⟩, ⟨1, 3, 7/10⟩⟩)

/-- Overwrite the `downstream.id` of the river stored at node `nid`
(`network.node(nid).data.downstream.id = v`). -/
def set_node_downstream (net : river_network) (nid : ℕ) (v : Int) : river_network :=
  { net with nodes := net.nodes.set nid ((net.nodes.getD nid none).map
      (fun r => { r with downstream := { r.downstream with id := v } })) }

/-- Translation of `river_network::add(r)` (routing.h lines 135-150); the
returned state is the object state when the call returns or throws. -/
def rn_add (net : river_network) (r : river) : river_network × Except String Unit :=
  match check_rid net r.id false with
  | .error e => (net, .error e)
  | .ok _ =>
    if (map_find net.rid_map r.id).isSome then
      (net, .error "the supplied river id is already registered")
    else if r.id = r.downstream.id then
      (net, .error "the supplied river.downstream.id should not point to self (cycle!)")
    else if r.downstream.id > 0 && (map_find net.rid_map r.downstream.id).isNone then
      (net, .error "the river.downstream.id does not yet exist in the network, please downstream river-segments first")
    else
      let node_id := net.nodes.length
      let net1 : river_network := { net with nodes := net.nodes ++ [some r] }
      let net2 : river_network :=
        if r.downstream.id ≠ 0 then
          let dv := map_bracket net1.rid_map r.downstream.id
          { net1 with rid_map := dv.2, edges := net1.edges ++ [(node_id, dv.1)] }
        else net1
      if graph_contains_directed_cycle net2 then
        ({ net2 with nodes := net2.nodes.set node_id none,
                     edges := net2.edges.filter (fun e => e.1 ≠ node_id && e.2 ≠ node_id) },
         .error "adding this river caused circular reference")
      else
        ({ net2 with rid_map := map_set net2.rid_map r.id node_id }, .ok ())

/-- Translation of `river_network::set_downstream_by_id(rid, downstream_rid)`
(routing.h lines 185-205), including the cycle-rollback branch exactly as
written: on a detected cycle the new edge is removed and
`network.add_edge(nid, rid_map[rid_old_downstream])` is executed
unconditionally — also when the river had no previous downstream
(`rid_old_downstream == 0`), in which case `rid_map[0]`
default-inserts the entry `0 ↦ 0` and an edge to node 0 is added. -/
def rn_set_downstream_by_id (net : river_network) (rid downstream_rid : Int) :
    river_network × Except String Unit :=
  match check_rid net rid true with
  | .error e => (net, .error e)
  | .ok _ =>
    match (if downstream_rid > 0 then check_rid net downstream_rid true else .ok ()) with
    | .error e => (net, .error e)
    | .ok _ =>
      let nv := map_bracket net.rid_map rid
      let nid := nv.1
      let net1 : river_network := { net with rid_map := nv.2 }
      let rid_old_downstream : Int := (node_data net1 nid).downstream.id
      let net2 : river_network :=
        if rid_old_downstream > 0 then
          let ov := map_bracket net1.rid_map rid_old_downstream
          { net1 with rid_map := ov.2, edges := net1.edges.erase (nid, ov.1) }
        else net1
      if downstream_rid > 0 then
        let dv := map_bracket net2.rid_map downstream_rid
        let net3 : river_network := { net2 with rid_map := dv.2, edges := net2.edges ++ [(nid, dv.1)] }
        if graph_contains_directed_cycle net3 then
          let net4 : river_network := { net3 with edges := net3.edges.erase (nid, dv.1) }
          let ov2 := map_bracket net4.rid_map rid_old_downstream
          let net5 : river_network := { net4 with rid_map := ov2.2, edges := net4.edges ++ [(nid, ov2.1)] }
          (net5, .error "connection would create a cycle, not allowed")
        else
          (set_node_downstream net3 nid downstream_rid, .ok ())
      else
        (set_node_downstream net2 nid downstream_rid, .ok ())

/-- Translation of `river_network::remove_by_id(rid)` (routing.h lines
152-160): zero the `downstream.id` of every parent (upstream) river, then
remove the node.  Note the source never erases `rid` from `rid_map`. -/
def rn_remove_by_id (net : river_network) (rid : Int) : river_network × Except String Unit :=
  match check_rid net rid true with
  | .error e => (net, .error e)
  | .ok _ =>
    let nv := map_bracket net.rid_map rid
    let nid := nv.1
    let net1 : river_network := { net with rid_map := nv.2 }
    let parents := (net1.edges.filter (fun e => e.2 = nid)).map (fun e => e.1)
    let net2 := parents.foldl (fun acc p => set_node_downstream acc p 0) net1
    ({ net2 with nodes := net2.nodes.set nid none,
                 edges := net2.edges.filter (fun e => e.1 ≠ nid && e.2 ≠ nid) },
     .ok ())

/- ------------------------------------------------------------------ -/
/- Unit hydro graph from the gamma shape (src/core/routing.h 353-368)  -/
/- ------------------------------------------------------------------ -/

/-- Translation of the sampling loop
`for (double q = d; q < 1.0; q += d) r.push_back(pdf(gdf, quantile(gdf, q)))`
of `make_uhg_from_gamma`, with `g q = pdf(gdf, quantile(gdf, q))` supplied as
a function (the boost gamma distribution is abstracted; for the true gamma
density with `alpha, beta > 0`, `g q > 0` on `0 < q < 1`).  The fuel bounds
the iteration count; `n_steps` iterations always suffice for `d = 1/n_steps`. -/
def uhg_loop (g : ℚ → ℚ) (d : ℚ) : ℚ → ℕ → List ℚ
  | _, 0 => []
  | q, fuel + 1 => if q < 1 then g q :: uhg_loop g d (q + d) fuel else []

/-- Translation of `shyft::core::routing::make_uhg_from_gamma(n_steps, ...)`
over exact rationals: sample the shape at `q = d, 2d, ...` while `q < 1` with
`d = 1/n_steps`, normalize by the accumulated sum, and fall back to the
single-element vector `[1.0]` when no sample was produced.  For
`n_steps = 0` the C++ step `d = 1.0/0 = +inf` makes the loop body never
execute; that case is modelled by the explicit guard. -/
def make_uhg_from_gamma (n_steps : ℕ) (g : ℚ → ℚ) : List ℚ :=
  let r : List ℚ :=
    if n_steps = 0 then []
    else uhg_loop g (1 / (n_steps : ℚ)) (1 / (n_steps : ℚ)) n_steps
  let s : ℚ := r.sum
  let rn : List ℚ := r.map (fun y => y / s)
  if rn.length = 0 then [1] else rn

/- ------------------------------------------------------------------ -/
/- Concrete routing scenarios used to settle the routing claims        -/
/- ------------------------------------------------------------------ -/

/-- A river with id 1 and no downstream. -/
def c_r1 : river := ⟨1, ⟨0, 0⟩, ⟨1, 3, 7/10⟩⟩

/-- A river with id 2 whose downstream is river 1. -/
def c_r2 : river := ⟨2, ⟨1, 0⟩, ⟨1, 3, 7/10⟩⟩

/-- The two-river network 2 → 1 (river 1 has no downstream). -/
def c_net2 : river_network := (rn_add (rn_add river_network.empty c_r1).1 c_r2).1

/-- Attempting to redirect river 1's downstream to river 2, which would close
the cycle 1 → 2 → 1. -/
def c4_res : river_network × Except String Unit := rn_set_downstream_by_id c_net2 1 2

/-- The one-river network holding only river 1. -/
def c9_net : river_network := (rn_add river_network.empty c_r1).1

/-- Removing river 1 from the one-river network. -/
def c9_res : river_network × Except String Unit := rn_remove_by_id c9_net 1

/-- Removing river 1 from the two-river network 2 → 1. -/
def c9_res2 : river_network × Except String Unit := rn_remove_by_id c_net2 1

/- ------------------------------------------------------------------ -/
/- Wire codec for the expression node variants (spec section 6; the     
   byte-level archive is boost serialization, modelled from the spec)   -/
/- ------------------------------------------------------------------ -/

/-- Wire token of the self-describing binary codec (spec section 6): a node is
written as a type tag with version, a back-reference into the index table of
already-written shared children, or a primitive field payload (each C++
primitive field group is one token here; the byte-level layout of primitives
is not what the round-trip claim is about). -/
inductive Tok where
  | tag (k ver : ℕ)
  | ref (i : ℕ)
  | ival (i : Int)
  | rval (q : ℚ)
  | rsval (qs : List ℚ)
  | sval (s : String)
  | bval (b : Bool)
  | fxval (f : ts_point_fx)
  | opval (o : iop_t)
  | cpval (c : convolve_policy)
  | axval (a : gta_t)
  | cnt (n : ℕ)
deriving DecidableEq, Repr

/-- Field encoding of a `gpoint_ts` payload. -/
def encPointRep (r : gpoint_rep) : List Tok :=
  [.axval r.ta, .rsval r.v, .fxval r.fx]

/-- Field encoding of an optional bound payload (the `aref_ts` rep carries a
possibly-null shared pointer to point data). -/
def encOptRep : Option gpoint_rep → List Tok
  | none => [.bval false]
  | some r => .bval true :: encPointRep r

/-- Field encoding of a `periodic_ts` payload. -/
def encPeriodic (r : periodic_rep) : List Tok :=
  [.rsval r.pattern, .ival r.t0, .ival r.dt]

/-- Index of a node in the shared-subexpression table (the object-tracking
table of the archive): position of the first structurally equal entry. -/
def tblIdx (tb : List apoint_ts) (t : apoint_ts) : Option ℕ :=
  match tb with
  | [] => none
  | x :: xs => if x = t then some 0 else (tblIdx xs t).map (fun i => i + 1)

mutual
/-- Modelled from the spec (section 6; the byte-level codec is the boost
binary archive, not among the given sources): encode one node.  A node already
in the index table is written as a single back-reference token and not
duplicated; otherwise it is written in full and registered. -/
def encN (t : apoint_ts) (tb : List apoint_ts) : List Tok × List apoint_ts :=
  match tblIdx tb t with
  | some i => ([Tok.ref i], tb)
  | none => encFull t tb
  termination_by (sizeOf t, 1)

/-- Modelled from the spec: the full (first-occurrence) encoding of one node:
its tag, version and fields in the field order of
`api/api_serialization.cpp`, children encoded recursively through the shared
table, and the node itself registered in the table afterwards. -/
def encFull (t : apoint_ts) (tb : List apoint_ts) : List Tok × List apoint_ts :=
  match t with
  | .gpoint r => (Tok.tag 0 0 :: encPointRep r, tb ++ [.gpoint r])
  | .aref s o => (Tok.tag 1 0 :: Tok.sval s :: encOptRep o, tb ++ [.aref s o])
  | .average ta ts =>
      (Tok.tag 2 0 :: Tok.axval ta :: (encN ts tb).1,
       (encN ts tb).2 ++ [.average ta ts])
  | .integral ta ts =>
      (Tok.tag 3 0 :: Tok.axval ta :: (encN ts tb).1,
       (encN ts tb).2 ++ [.integral ta ts])
  | .accumulate ta ts =>
      (Tok.tag 4 0 :: Tok.axval ta :: (encN ts tb).1,
       (encN ts tb).2 ++ [.accumulate ta ts])
  | .time_shift ta ts dt =>
      (Tok.tag 5 0 :: Tok.axval ta :: (encN ts tb).1 ++ [Tok.ival dt],
       (encN ts tb).2 ++ [.time_shift ta ts dt])
  | .periodic r => (Tok.tag 6 0 :: encPeriodic r, tb ++ [.periodic r])
  | .convolve ts fx w pol =>
      (Tok.tag 7 0 :: (encN ts tb).1 ++ [Tok.fxval fx, Tok.rsval w, Tok.cpval pol],
       (encN ts tb).2 ++ [.convolve ts fx w pol])
  | .abin_op l op r ta fx b =>
      (Tok.tag 8 0 :: (encN l tb).1
         ++ Tok.opval op :: (encN r (encN l tb).2).1
         ++ [Tok.axval ta, Tok.fxval fx, Tok.bval b],
       (encN r (encN l tb).2).2 ++ [.abin_op l op r ta fx b])
  | .abin_op_scalar l op r ta fx b =>
      (Tok.tag 9 0 :: Tok.rval l :: Tok.opval op :: (encN r tb).1
         ++ [Tok.axval ta, Tok.fxval fx, Tok.bval b],
       (encN r tb).2 ++ [.abin_op_scalar l op r ta fx b])
  | .abin_op_ts_scalar l op r ta fx b =>
      (Tok.tag 10 0 :: (encN l tb).1
         ++ [Tok.opval op, Tok.rval r, Tok.axval ta, Tok.fxval fx, Tok.bval b],
       (encN l tb).2 ++ [.abin_op_ts_scalar l op r ta fx b])
  | .vector xs =>
      (Tok.tag 11 0 :: Tok.cnt xs.len :: (encL xs tb).1,
       (encL xs tb).2 ++ [.vector xs])
  termination_by (sizeOf t, 0)

/-- Modelled from the spec: encode the elements of a vector node in order,
threading the shared-subexpression table. -/
def encL (xs : ats_vector) (tb : List apoint_ts) : List Tok × List apoint_ts :=
  match xs with
  | .nil => ([], tb)
  | .cons x rest =>
      ((encN x tb).1 ++ (encL rest (encN x tb).2).1, (encL rest (encN x tb).2).2)
  termination_by (sizeOf xs, 0)
end

mutual
/-- Modelled from the spec: decode one node from the token stream, rebuilding
the same index table the encoder maintained (a back-reference resolves through
the table; a full node registers itself after its children).  The fuel bounds
the recursion depth; one unit is consumed per decoded node and every node
consumes at least one token, so `tokens + 1` fuel always suffices.  Returns
the node, the remaining tokens and the updated table, or `none` for malformed
input. -/
def decN (fuel : ℕ) (toks : List Tok) (tb : List apoint_ts) :
    Option (apoint_ts × List Tok × List apoint_ts) :=
  match fuel with
  | 0 => none
  | fuel + 1 =>
    match toks with
    | Tok.ref i :: rest => (tb[i]?).map (fun t => (t, rest, tb))
    | Tok.tag 0 _ :: Tok.axval ta :: Tok.rsval v :: Tok.fxval fx :: rest =>
        some (.gpoint ⟨ta, v, fx⟩, rest, tb ++ [.gpoint ⟨ta, v, fx⟩])
    | Tok.tag 1 _ :: Tok.sval s :: Tok.bval false :: rest =>
        some (.aref s none, rest, tb ++ [.aref s none])
    | Tok.tag 1 _ :: Tok.sval s :: Tok.bval true
        :: Tok.axval ta :: Tok.rsval v :: Tok.fxval fx :: rest =>
        some (.aref s (some ⟨ta, v, fx⟩), rest, tb ++ [.aref s (some ⟨ta, v, fx⟩)])
    | Tok.tag 2 _ :: Tok.axval ta :: rest =>
        (match decN fuel rest tb with
         | some (ts, rest1, tb1) => some (.average ta ts, rest1, tb1 ++ [.average ta ts])
         | _ => none)
    | Tok.tag 3 _ :: Tok.axval ta :: rest =>
        (match decN fuel rest tb with
         | some (ts, rest1, tb1) => some (.integral ta ts, rest1, tb1 ++ [.integral ta ts])
         | _ => none)
    | Tok.tag 4 _ :: Tok.axval ta :: rest =>
        (match decN fuel rest tb with
         | some (ts, rest1, tb1) =>
             some (.accumulate ta ts, rest1, tb1 ++ [.accumulate ta ts])
         | _ => none)
    | Tok.tag 5 _ :: Tok.axval ta :: rest =>
        (match decN fuel rest tb with
         | some (ts, Tok.ival dt :: rest1, tb1) =>
             some (.time_shift ta ts dt, rest1, tb1 ++ [.time_shift ta ts dt])
         | _ => none)
    | Tok.tag 6 _ :: Tok.rsval pat :: Tok.ival t0 :: Tok.ival dt :: rest =>
        some (.periodic ⟨pat, t0, dt⟩, rest, tb ++ [.periodic ⟨pat, t0, dt⟩])
    | Tok.tag 7 _ :: rest =>
        (match decN fuel rest tb with
         | some (ts, Tok.fxval fx :: Tok.rsval w :: Tok.cpval pol :: rest1, tb1) =>
             some (.convolve ts fx w pol, rest1, tb1 ++ [.convolve ts fx w pol])
         | _ => none)
    | Tok.tag 8 _ :: rest =>
        (match decN fuel rest tb with
         | some (l, Tok.opval op :: rest1, tb1) =>
             (match decN fuel rest1 tb1 with
              | some (r, Tok.axval ta :: Tok.fxval fx :: Tok.bval b :: rest2, tb2) =>
                  some (.abin_op l op r ta fx b, rest2, tb2 ++ [.abin_op l op r ta fx b])
              | _ => none)
         | _ => none)
    | Tok.tag 9 _ :: Tok.rval l :: Tok.opval op :: rest =>
        (match decN fuel rest tb with
         | some (r, Tok.axval ta :: Tok.fxval fx :: Tok.bval b :: rest1, tb1) =>
             some (.abin_op_scalar l op r ta fx b, rest1,
                   tb1 ++ [.abin_op_scalar l op r ta fx b])
         | _ => none)
    | Tok.tag 10 _ :: rest =>
        (match decN fuel rest tb with
         | some (l, Tok.opval op :: Tok.rval r :: Tok.axval ta
                      :: Tok.fxval fx :: Tok.bval b :: rest1, tb1) =>
             some (.abin_op_ts_scalar l op r ta fx b, rest1,
                   tb1 ++ [.abin_op_ts_scalar l op r ta fx b])
         | _ => none)
    | Tok.tag 11 _ :: Tok.cnt n :: rest =>
        (match decL fuel n rest tb with
         | some (xs, rest1, tb1) => some (.vector xs, rest1, tb1 ++ [.vector xs])
         | _ => none)
    | _ => none
  termination_by (fuel, 0, 0)

/-- Modelled from the spec: decode `n` vector elements in order, threading the
table. -/
def decL (fuel n : ℕ) (toks : List Tok) (tb : List apoint_ts) :
    Option (ats_vector × List Tok × List apoint_ts) :=
  match n with
  | 0 => some (.nil, toks, tb)
  | n + 1 =>
    (match decN fuel toks tb with
     | some (x, rest1, tb1) =>
         (match decL fuel n rest1 tb1 with
          | some (xs, rest2, tb2) => some (.cons x xs, rest2, tb2)
          | _ => none)
     | _ => none)
  termination_by (fuel, 1, n)
end

/-- Translation of `apoint_ts::serialize()`: encode this node through a fresh
archive (empty sharing table). -/
def apoint_ts.serialize (x : apoint_ts) : List Tok := (encN x []).1

/-- Translation of `apoint_ts::deserialize(blob)`: decode one node from the
stream through a fresh archive; `tokens + 1` fuel always suffices since every
decoding step consumes at least one token. -/
def apoint_ts.deserialize (toks : List Tok) : Option apoint_ts :=
  match decN (toks.length + 1) toks [] with
  | some (t, _, _) => some t
  | none => none

/- ================================================================== -/
/- Theorems                                                            -/
/- ================================================================== -/

/-- The fill loop of `fire_cb` produces, from running index `i`, the constant
series of values `i, i+1, ...`. -/
theorem fire_cb_fill_eq (ta : gta_t) :
    ∀ (k i : ℕ), fire_cb_fill ta i k =
      (List.range k).map
        (fun j => apoint_ts_const ta ((i + j : ℕ) : ℚ) ts_point_fx.POINT_AVERAGE_VALUE) := by
  intro k
  induction k with
  | zero => intro i; rfl
  | succ k ih =>
      intro i
      rw [List.range_succ_eq_map, List.map_cons, List.map_map]
      show apoint_ts_const ta (i : ℚ) _ :: fire_cb_fill ta (i + 1) k = _
      rw [ih (i + 1)]
      refine congrArg₂ _ (by norm_num) (List.map_congr_left ?_)
      intro j _
      have : i + 1 + j = i + (j + 1) := by omega
      simp [Function.comp, this]

/-- Claim C1: with no resolver callback configured (`cb` is `None`),
`fire_cb(ts_ids, p)` returns exactly one point series per identifier, the
`i`-th being the constant series of value `i` over the fixed-step hourly axis
starting at `p.start` with `p.timespan()/3600` steps; as a pure function of
`(ts_ids, p)` the fallback is in particular deterministic. -/
theorem fire_cb_no_callback_fallback (ts_ids : List String) (p : utcperiod) :
    fire_cb none ts_ids p =
      (List.range ts_ids.length).map
        (fun (i : ℕ) => apoint_ts_const ⟨p.start, deltahours 1, p.timespan / deltahours 1⟩
          (i : ℚ) ts_point_fx.POINT_AVERAGE_VALUE) := by
  show fire_cb_fill _ 0 ts_ids.length = _
  rw [fire_cb_fill_eq]
  exact List.map_congr_left (fun j _ => by norm_num)

/-- Deduplication yields a subsequence of the occurrence list. -/
theorem dedup_acc_sublist : ∀ (l seen : List String), (dedup_acc seen l).Sublist l := by
  intro l
  induction l with
  | nil => intro seen; simp [dedup_acc]
  | cons a rest ih =>
      intro seen
      by_cases h : a ∈ seen
      · simpa [dedup_acc, h] using (ih seen).cons a
      · simpa [dedup_acc, h] using (ih (a :: seen)).cons₂ a

/-- Membership in the deduplicated list: exactly the occurring identifiers not
already seen. -/
theorem mem_dedup_acc (s : String) :
    ∀ (l seen : List String), s ∈ dedup_acc seen l ↔ s ∈ l ∧ s ∉ seen := by
  intro l
  induction l with
  | nil => intro seen; simp [dedup_acc]
  | cons a rest ih =>
      intro seen
      by_cases h : a ∈ seen
      · rw [dedup_acc, if_pos h, ih seen]
        constructor
        · exact fun ⟨h1, h2⟩ => ⟨List.mem_cons_of_mem a h1, h2⟩
        · rintro ⟨h1, h2⟩
          rcases List.mem_cons.mp h1 with rfl | h1
          · exact absurd h h2
          · exact ⟨h1, h2⟩
      · rw [dedup_acc, if_neg h]
        constructor
        · intro hm
          rcases List.mem_cons.mp hm with rfl | hm
          · exact ⟨List.mem_cons_self s rest, h⟩
          · have := (ih (a :: seen)).mp hm
            exact ⟨List.mem_cons_of_mem a this.1,
              fun hs => this.2 (List.mem_cons_of_mem a hs)⟩
        · rintro ⟨h1, h2⟩
          rcases List.mem_cons.mp h1 with rfl | h1
          · exact List.mem_cons_self s _
          · by_cases hsa : s = a
            · exact hsa ▸ List.mem_cons_self a _
            · exact List.mem_cons_of_mem a ((ih (a :: seen)).mpr
                ⟨h1, fun hs => (List.mem_cons.mp hs).elim hsa h2⟩)

/-- The deduplicated list has no duplicates. -/
theorem dedup_acc_nodup : ∀ (l seen : List String), (dedup_acc seen l).Nodup := by
  intro l
  induction l with
  | nil => intro seen; simp [dedup_acc]
  | cons a rest ih =>
      intro seen
      by_cases h : a ∈ seen
      · rw [dedup_acc, if_pos h]; exact ih seen
      · rw [dedup_acc, if_neg h]
        refine List.nodup_cons.mpr ⟨fun hm => ?_, ih (a :: seen)⟩
        exact ((mem_dedup_acc a rest (a :: seen)).mp hm).2 (List.mem_cons_self a seen)

/-- Claim C3: for every request vector, `bind` computes an ordered,
duplicate-free identifier list containing exactly the unresolved identifiers
occurring in the request (in first-occurrence order, a subsequence of the
occurrence sequence), and its resolver-invocation log shows exactly one
invocation carrying that list and the period when the list is non-empty, and
no invocation at all when it is empty. -/
theorem bind_single_dedup_resolve (resolver : List String → utcperiod → List gpoint_rep)
    (tsv : List apoint_ts) (p : utcperiod) :
    (request_ids tsv).Sublist ((tsv.map unbound_ids).flatten)
    ∧ (request_ids tsv).Nodup
    ∧ (∀ s, s ∈ request_ids tsv ↔ s ∈ (tsv.map unbound_ids).flatten)
    ∧ (bind resolver tsv p).2 =
        (if request_ids tsv = [] then [] else [(request_ids tsv, p)]) := by
  refine ⟨dedup_acc_sublist _ _, dedup_acc_nodup _ _, ?_, ?_⟩
  · intro s
    rw [request_ids, mem_dedup_acc]
    simp
  · by_cases h : request_ids tsv = []
    · simp [bind, h]
    · have h' : (request_ids tsv).isEmpty = false := by
        simpa [List.isEmpty_iff] using h
      simp only [bind, h', Bool.false_eq_true, if_false, if_neg h]
      split <;> rfl

mutual
/-- A fully bound node contributes no unresolved identifiers. -/
theorem fully_bound_unbound_ids :
    ∀ t : apoint_ts, fully_bound t = true → unbound_ids t = []
  | .gpoint _, _ => rfl
  | .aref _ none, h => by simp [fully_bound] at h
  | .aref _ (some _), _ => rfl
  | .average _ ts, h => fully_bound_unbound_ids ts h
  | .integral _ ts, h => fully_bound_unbound_ids ts h
  | .accumulate _ ts, h => fully_bound_unbound_ids ts h
  | .time_shift _ ts _, h => fully_bound_unbound_ids ts h
  | .periodic _, _ => rfl
  | .convolve ts _ _ _, h => fully_bound_unbound_ids ts h
  | .abin_op l _ r _ _ _, h => by
      rw [fully_bound, Bool.and_eq_true] at h
      rw [unbound_ids, fully_bound_unbound_ids l h.1, fully_bound_unbound_ids r h.2]
      rfl
  | .abin_op_scalar _ _ r _ _ _, h => fully_bound_unbound_ids r h
  | .abin_op_ts_scalar l _ _ _ _ _, h => fully_bound_unbound_ids l h
  | .vector xs, h => fully_bound_unbound_idsL xs h

/-- A fully bound vector contributes no unresolved identifiers. -/
theorem fully_bound_unbound_idsL :
    ∀ xs : ats_vector, fully_boundL xs = true → unbound_idsL xs = []
  | .nil, _ => rfl
  | .cons x xs, h => by
      rw [fully_boundL, Bool.and_eq_true] at h
      rw [unbound_idsL, fully_bound_unbound_ids x h.1, fully_bound_unbound_idsL xs h.2]
      rfl
end

/-- Claim C6: binding an already-fully-bound request performs zero resolver
invocations and returns the input vector unchanged. -/
theorem bind_idempotent_on_bound (resolver : List String → utcperiod → List gpoint_rep)
    (tsv : List apoint_ts) (p : utcperiod)
    (h : ∀ t ∈ tsv, fully_bound t = true) :
    bind resolver tsv p = (.ok tsv, []) := by
  have hids : request_ids tsv = [] := by
    rw [request_ids]
    have : (tsv.map unbound_ids).flatten = [] := by
      rw [List.flatten_eq_nil_iff]
      intro l hl
      rcases List.mem_map.mp hl with ⟨t, ht, rfl⟩
      exact fully_bound_unbound_ids t (h t ht)
    rw [this]
    rfl
  simp [bind, hids]

/-- Witness for claim C6 at a concrete fully bound one-element request. -/
theorem bind_idempotent_on_bound_witness :
    bind (fun _ _ => []) [apoint_ts.gpoint ⟨⟨0, 3600, 1⟩, [1], .POINT_AVERAGE_VALUE⟩] ⟨0, 3600⟩
      = (.ok [apoint_ts.gpoint ⟨⟨0, 3600, 1⟩, [1], .POINT_AVERAGE_VALUE⟩], []) :=
  bind_idempotent_on_bound (fun _ _ => []) _ ⟨0, 3600⟩ (by intro t ht; simp at ht; subst ht; rfl)

/-- Claim C7: when the resolver's reply length differs from the number of
requested identifiers, the request fails with the resolver-mismatch error —
the lone logged invocation produced no substituted result at all (no padding,
no partial success). -/
theorem bind_resolver_mismatch_fatal (resolver : List String → utcperiod → List gpoint_rep)
    (tsv : List apoint_ts) (p : utcperiod)
    (h1 : request_ids tsv ≠ [])
    (h2 : (resolver (request_ids tsv) p).length ≠ (request_ids tsv).length) :
    bind resolver tsv p = (.error .resolver_mismatch, [(request_ids tsv, p)]) := by
  have h1' : (request_ids tsv).isEmpty = false := by
    simpa [List.isEmpty_iff] using h1
  rw [bind]
  simp only [h1', Bool.false_eq_true, if_false, if_pos h2]

/-- Witness for claim C7: a request with one unresolved reference and a
resolver replying with an empty vector. -/
theorem bind_resolver_mismatch_fatal_witness :
    request_ids [apoint_ts.aref "a" none] ≠ []
    ∧ bind (fun _ _ => []) [apoint_ts.aref "a" none] ⟨0, 3600⟩
        = (.error .resolver_mismatch, [(request_ids [apoint_ts.aref "a" none], ⟨0, 3600⟩)]) :=
  ⟨by decide, bind_resolver_mismatch_fatal (fun _ _ => []) _ ⟨0, 3600⟩ (by decide) (by decide)⟩

/-- Claim C5: `percentiles` returns one series per requested percentile in the
order of the percentile list; percentile −1 is the arithmetic mean of the
ensemble at each step and 0–100 the linearly interpolated order statistic, so
for the 3-member ensemble with values `[1,2,3]` at a step, percentile −1
yields 2.0 and percentile 50 yields 2.0. -/
theorem percentiles_order_mean_median (ens : List (List ℚ)) (plist : List Int) (i : ℕ) :
    (percentiles ens plist).length = plist.length
    ∧ (percentiles ens plist)[i]? =
        (plist[i]?).map (fun pct => ens.map (fun vals => percentile_at vals pct))
    ∧ (∀ vals, percentile_at vals (-1) = ens_mean vals)
    ∧ percentile_at [1, 2, 3] (-1) = 2
    ∧ percentile_at [1, 2, 3] 50 = 2 := by
  refine ⟨by simp [percentiles], by simp [percentiles], fun vals => by simp [percentile_at],
    by norm_num [percentile_at, ens_mean],
    by norm_num [percentile_at, percentile_interp, List.insertionSort, List.orderedInsert]⟩

/-- Claim C4 (failing-input evaluation): redirecting river 1's downstream to
river 2 in the network 2 → 1 is rejected as a cycle, but the rollback branch
of `set_downstream_by_id` leaves the graph changed: because river 1 had no
previous downstream, `rid_map[0]` default-inserts the registration `0 ↦ 0`
and an edge from river 1's node to node 0 (itself) is added, so the failed
operation leaves a self-edge — the graph even contains a directed cycle
afterwards, and the `rid_map` registration state differs from before. -/
theorem set_downstream_cycle_rollback_corrupts_state :
    c4_res.2 = .error "connection would create a cycle, not allowed"
    ∧ map_find c_net2.rid_map 0 = none
    ∧ map_find c4_res.1.rid_map 0 = some 0
    ∧ c_net2.edges = [(1, 0)]
    ∧ c4_res.1.edges = [(1, 0), (0, 0)]
    ∧ graph_contains_directed_cycle c_net2 = false
    ∧ graph_contains_directed_cycle c4_res.1 = true
    ∧ c4_res.1 ≠ c_net2 := by
  refine ⟨rfl, rfl, rfl, rfl, rfl, rfl, rfl, fun h => ?_⟩
  have hsome : map_find c4_res.1.rid_map 0 = some 0 := rfl
  rw [h] at hsome
  exact Option.noConfusion ((rfl : map_find c_net2.rid_map 0 = none).symm.trans hsome)

/-- Claim C9 (failing-input evaluation): removing river 1 zeroes the upstream
river's downstream reference (the part of the claim the code satisfies), but
river 1 stays registered: `remove_by_id` never erases `rid_map[1]`, so a
subsequent `check_rid(1)` succeeds instead of failing and re-adding river 1
is refused as already registered. -/
theorem remove_by_id_leaves_id_registered :
    c9_res.2 = .ok ()
    ∧ check_rid c9_res.1 1 true = .ok ()
    ∧ map_find c9_res.1.rid_map 1 = some 0
    ∧ (rn_add c9_res.1 c_r1).2 = .error "the supplied river id is already registered"
    ∧ (node_data c9_res2.1 1).downstream.id = 0
    ∧ check_rid c9_res2.1 1 true = .ok () := by
  exact ⟨rfl, rfl, rfl, rfl, rfl, rfl⟩

/-- Sum of a list divided elementwise by a constant. -/
theorem sum_map_div (l : List ℚ) (c : ℚ) : (l.map (fun y => y / c)).sum = l.sum / c := by
  induction l with
  | nil => simp
  | cons a rest ih => simp [ih, add_div]

/-- The sampling loop of `make_uhg_from_gamma` visits exactly the quantiles
`i/n, (i+1)/n, ..., (n-1)/n` when started at `i/n` with `1 ≤ i ≤ n` and fuel
covering the remaining steps. -/
theorem uhg_loop_eq (g : ℚ → ℚ) (n : ℕ) (hn : 1 ≤ n) :
    ∀ (k i : ℕ), 1 ≤ i → i + k = n →
      uhg_loop g (1 / (n : ℚ)) ((i : ℚ) / (n : ℚ)) (k + 1) =
        (List.range k).map (fun j => g (((i + j : ℕ) : ℚ) / (n : ℚ))) := by
  have hn0 : ((n : ℚ)) ≠ 0 := Nat.cast_ne_zero.mpr (by omega)
  intro k
  induction k with
  | zero =>
      intro i _ hik
      have : (i : ℚ) / (n : ℚ) = 1 := by
        rw [show i = n by omega]
        exact div_self hn0
      rw [uhg_loop, this]
      simp
  | succ k ih =>
      intro i hi hik
      have hipos : (0 : ℚ) < (n : ℚ) := by
        have : 0 < n := hn
        exact_mod_cast this
      have hqlt : (i : ℚ) / (n : ℚ) < 1 := by
        rw [div_lt_one hipos]
        exact_mod_cast (by omega : i < n)
      rw [uhg_loop, if_pos hqlt]
      have hstep : (i : ℚ) / (n : ℚ) + 1 / (n : ℚ) = ((i + 1 : ℕ) : ℚ) / (n : ℚ) := by
        rw [div_add_div_same]
        push_cast
        ring_nf
      rw [hstep, ih (i + 1) (by omega) (by omega)]
      rw [List.range_succ_eq_map, List.map_cons, List.map_map]
      refine congrArg₂ _ (by norm_num) (List.map_congr_left ?_)
      intro j _
      have : i + 1 + j = i + (j + 1) := by omega
      simp [Function.comp, this]

/-- Claim C10: `make_uhg_from_gamma` always returns a non-empty weight
vector; for 0 or 1 steps it returns exactly `[1.0]` (no delay), and for at
least 2 steps — with the gamma shape sampler positive on the open unit
interval, as the gamma density is for `alpha, beta > 0` — the returned
weights are normalized to sum exactly 1. -/
theorem make_uhg_from_gamma_normalized (g : ℚ → ℚ) (n : ℕ) :
    make_uhg_from_gamma n g ≠ []
    ∧ ((n = 0 ∨ n = 1) → make_uhg_from_gamma n g = [1])
    ∧ (2 ≤ n → (∀ q : ℚ, 0 < q → q < 1 → 0 < g q) →
        (make_uhg_from_gamma n g).sum = 1) := by
  refine ⟨?_, ?_, ?_⟩
  · rw [make_uhg_from_gamma]
    generalize (if n = 0 then ([] : List ℚ)
      else uhg_loop g (1 / (n : ℚ)) (1 / (n : ℚ)) n) = r0
    split
    · exact List.cons_ne_nil 1 []
    · rename_i h
      exact fun hnil => h (by rw [hnil]; rfl)
  · rintro (rfl | rfl)
    · rfl
    · rw [make_uhg_from_gamma]
      norm_num [uhg_loop]
  · intro hn hg
    have hn1 : 1 ≤ n := by omega
    have hne : n ≠ 0 := by omega
    have hnpos : (0 : ℚ) < (n : ℚ) := by exact_mod_cast (by omega : 0 < n)
    have hfuel : n - 1 + 1 = n := by omega
    have hloop := uhg_loop_eq g n hn1 (n - 1) 1 le_rfl (by omega)
    rw [hfuel, Nat.cast_one] at hloop
    have hrpos : ∀ y ∈ (List.range (n - 1)).map (fun j => g (((1 + j : ℕ) : ℚ) / (n : ℚ))),
        0 < y := by
      intro y hy
      rcases List.mem_map.mp hy with ⟨j, hj, rfl⟩
      have hjlt : j < n - 1 := List.mem_range.mp hj
      refine hg _ (div_pos (by exact_mod_cast (by omega : 0 < 1 + j)) hnpos) ?_
      rw [div_lt_one hnpos]
      exact_mod_cast (by omega : 1 + j < n)
    have hrne : (List.range (n - 1)).map (fun j => g (((1 + j : ℕ) : ℚ) / (n : ℚ))) ≠ [] := by
      simp only [ne_eq, List.map_eq_nil_iff, List.range_eq_nil]
      omega
    have hspos := List.sum_pos _ hrpos hrne
    rw [make_uhg_from_gamma, if_neg hne, hloop]
    rw [if_neg (by simp only [List.length_map, List.length_range]; omega)]
    rw [sum_map_div, div_self (ne_of_gt hspos)]

/-- Witness for claim C10 at `n_steps = 2` with the constant-1 shape sampler. -/
theorem make_uhg_from_gamma_normalized_witness :
    (make_uhg_from_gamma 2 (fun _ => (1 : ℚ))).sum = 1 :=
  (make_uhg_from_gamma_normalized (fun _ => (1 : ℚ)) 2).2.2 (by norm_num)
    (fun _ _ _ => by norm_num)


/-- A table hit resolves through the table to the same node. -/
theorem tblIdx_getElem (tb : List apoint_ts) (t : apoint_ts) :
    ∀ i, tblIdx tb t = some i → tb[i]? = some t := by
  induction tb with
  | nil => intro i h; simp [tblIdx] at h
  | cons x xs ih =>
      intro i h
      rw [tblIdx] at h
      by_cases hx : x = t
      · rw [if_pos hx] at h
        injection h with h'
        subst h'
        simpa using hx
      · rw [if_neg hx] at h
        rcases Option.map_eq_some'.mp h with ⟨j, hj, hji⟩
        subst hji
        simpa using ih j hj

/-- Every table member has an index. -/
theorem tblIdx_of_mem (tb : List apoint_ts) (t : apoint_ts) (h : t ∈ tb) :
    ∃ i, tblIdx tb t = some i := by
  induction tb with
  | nil => simp at h
  | cons x xs ih =>
      rw [tblIdx]
      by_cases hx : x = t
      · exact ⟨0, by rw [if_pos hx]⟩
      · rcases List.mem_cons.mp h with rfl | hmem
        · exact absurd rfl hx
        · rcases ih hmem with ⟨j, hj⟩
          exact ⟨j + 1, by rw [if_neg hx, hj]; rfl⟩

/-- A node already in the table is encoded as one back-reference token. -/
theorem encN_hit (t : apoint_ts) (tb : List apoint_ts) (i : ℕ)
    (htbl : tblIdx tb t = some i) : encN t tb = ([Tok.ref i], tb) := by
  rw [encN, htbl]

/-- A node not yet in the table is encoded in full. -/
theorem encN_miss (t : apoint_ts) (tb : List apoint_ts)
    (htbl : tblIdx tb t = none) : encN t tb = encFull t tb := by
  rw [encN, htbl]

mutual
/-- Decoding an encoded node from any table state consumes exactly its tokens
and returns the node and the encoder's table, for any fuel exceeding the token
count. -/
theorem rtN (t : apoint_ts) (tb : List apoint_ts) (rest : List Tok) (fuel : ℕ)
    (h : (encN t tb).1.length < fuel) :
    decN fuel ((encN t tb).1 ++ rest) tb = some (t, rest, (encN t tb).2) := by
  obtain ⟨f, rfl⟩ : ∃ f, fuel = f + 1 := ⟨fuel - 1, by omega⟩
  cases htbl : tblIdx tb t with
  | some i =>
      have hget := tblIdx_getElem tb t i htbl
      rw [encN_hit t tb i htbl]
      simp [decN, hget]
  | none =>
      rw [encN_miss t tb htbl] at h ⊢
      cases t with
      | gpoint r =>
          simp only [encFull]
          simp [decN, encPointRep]
      | aref s o =>
          cases o with
          | none =>
              simp only [encFull]
              simp [decN, encOptRep]
          | some r =>
              simp only [encFull]
              simp [decN, encOptRep, encPointRep]
      | average ta ts =>
          simp only [encFull, List.length_cons] at h
          have ih := rtN ts tb rest f (by omega)
          simp only [encFull]
          simp [decN, ih]
      | integral ta ts =>
          simp only [encFull, List.length_cons] at h
          have ih := rtN ts tb rest f (by omega)
          simp only [encFull]
          simp [decN, ih]
      | accumulate ta ts =>
          simp only [encFull, List.length_cons] at h
          have ih := rtN ts tb rest f (by omega)
          simp only [encFull]
          simp [decN, ih]
      | time_shift ta ts dt =>
          simp only [encFull, List.length_cons, List.length_append] at h
          have ih := rtN ts tb (Tok.ival dt :: rest) f (by omega)
          simp only [encFull]
          simp [decN, ih]
      | periodic r =>
          simp only [encFull]
          simp [decN, encPeriodic]
      | convolve ts fx w pol =>
          simp only [encFull, List.length_cons, List.length_append] at h
          have ih := rtN ts tb (Tok.fxval fx :: Tok.rsval w :: Tok.cpval pol :: rest) f
            (by omega)
          simp only [encFull]
          simp [decN, ih]
      | abin_op l op r ta fx b =>
          simp only [encFull, List.length_cons, List.length_append] at h
          have ih1 := rtN l tb
            (Tok.opval op :: ((encN r (encN l tb).2).1
              ++ (Tok.axval ta :: Tok.fxval fx :: Tok.bval b :: rest))) f (by omega)
          have ih2 := rtN r (encN l tb).2
            (Tok.axval ta :: Tok.fxval fx :: Tok.bval b :: rest) f (by omega)
          simp only [encFull]
          simp [decN, ih1, ih2]
      | abin_op_scalar l op r ta fx b =>
          simp only [encFull, List.length_cons, List.length_append] at h
          have ih := rtN r tb (Tok.axval ta :: Tok.fxval fx :: Tok.bval b :: rest) f
            (by omega)
          simp only [encFull]
          simp [decN, ih]
      | abin_op_ts_scalar l op r ta fx b =>
          simp only [encFull, List.length_cons, List.length_append] at h
          have ih := rtN l tb
            (Tok.opval op :: Tok.rval r :: Tok.axval ta :: Tok.fxval fx :: Tok.bval b :: rest)
            f (by omega)
          simp only [encFull]
          simp [decN, ih]
      | vector xs =>
          simp only [encFull, List.length_cons] at h
          have ih := rtL xs tb rest f (by omega)
          simp only [encFull]
          simp [decN, ih]

/-- Decoding an encoded element sequence consumes exactly its tokens. -/
theorem rtL (xs : ats_vector) (tb : List apoint_ts) (rest : List Tok) (fuel : ℕ)
    (h : (encL xs tb).1.length < fuel) :
    decL fuel xs.len ((encL xs tb).1 ++ rest) tb = some (xs, rest, (encL xs tb).2) := by
  cases xs with
  | nil => simp [encL, ats_vector.len, decL]
  | cons x tail =>
      simp only [encL, List.length_append] at h
      have ih1 := rtN x tb ((encL tail (encN x tb).2).1 ++ rest) fuel (by omega)
      have ih2 := rtL tail (encN x tb).2 rest fuel (by omega)
      simp only [encL, ats_vector.len]
      simp [decL, ih1, ih2]
end

/-- Claim C2: for every expression node (every variant, arbitrarily nested),
deserializing the serialization yields a structurally equal node; shared
sub-expressions are preserved as shared on the wire: a subtree already present
in the archive's index table is written as a single back-reference token and
not encoded again (the table is unchanged), and the back-reference resolves to
that same subtree. -/
theorem serialize_roundtrip_sharing (x : apoint_ts) :
    apoint_ts.deserialize (apoint_ts.serialize x) = some x
    ∧ ∀ (t : apoint_ts) (tb : List apoint_ts), t ∈ tb →
        ∃ i, encN t tb = ([Tok.ref i], tb) ∧ tb[i]? = some t := by
  constructor
  · have h := rtN x [] [] ((encN x []).1.length + 1) (Nat.lt_succ_self _)
    rw [List.append_nil] at h
    simp only [apoint_ts.deserialize, apoint_ts.serialize]
    rw [h]
  · intro t tb hmem
    rcases tblIdx_of_mem tb t hmem with ⟨i, hi⟩
    exact ⟨i, encN_hit t tb i hi, tblIdx_getElem tb t i hi⟩

/-- Witness for claim C2 at a concrete reference node and one-entry table. -/
theorem serialize_roundtrip_sharing_witness :
    apoint_ts.deserialize (apoint_ts.serialize (apoint_ts.aref "a" none))
        = some (apoint_ts.aref "a" none)
    ∧ ∃ i, encN (apoint_ts.aref "a" none) [apoint_ts.aref "a" none]
          = ([Tok.ref i], [apoint_ts.aref "a" none])
        ∧ [apoint_ts.aref "a" none][i]? = some (apoint_ts.aref "a" none) :=
  ⟨(serialize_roundtrip_sharing (apoint_ts.aref "a" none)).1,
   (serialize_roundtrip_sharing (apoint_ts.aref "a" none)).2
     (apoint_ts.aref "a" none) [apoint_ts.aref "a" none] (List.mem_singleton.mpr rfl)⟩

end Shyft
